import Mathlib

/-!
Verification of the embedding endpoint service in
`src/Backend/embedding_service/app.py`.

The service loads a sentence-embedding model once at module import,
exposes `POST /embed` accepting a JSON body validated against the
pydantic model `TextRequest { texts: list[str] }`, calls
`model.encode(req.texts, normalize_embeddings=True)` and returns
`{"embeddings": ...}`.

The embedding model itself (`SentenceTransformer`) and the web
framework (FastAPI / pydantic) are external collaborators; their
observable behaviour at this service's boundary is modelled from the
spec where noted. The service's own logic (validation shape, the
handler's data flow, the startup lifecycle) is embedded from the
source.
-/

namespace EmbeddingService

/-- JSON values, as obtained from parsing a request body. -/
inductive Json where
  | null : Json
  | bool (b : Bool) : Json
  | num (n : Int) : Json
  | str (s : String) : Json
  | arr (items : List Json) : Json
  | obj (fields : List (String × Json)) : Json

/-- Field lookup in a JSON object: the last binding of a key wins,
matching python dict construction from parsed JSON, where a later
duplicate key overwrites an earlier one. -/
def getField (name : String) : List (String × Json) → Option Json
  | [] => none
  | (k, v) :: rest =>
    match getField name rest with
    | some r => some r
    | none => if k = name then some v else none

/-- A JSON value is accepted for a `str` field exactly when it is a
JSON string (pydantic does not coerce numbers or booleans to `str`). -/
def strOfJson : Json → Option String
  | .str s => some s
  | _ => none

/-- Validate every element of a JSON array as a string, in order. -/
def allStrings : List Json → Option (List String)
  | [] => some []
  | j :: rest =>
    match strOfJson j with
    | some s => (allStrings rest).map (fun ts => s :: ts)
    | none => none

/-- Machine-readable description of a violated field of the request
body, mirroring the `loc`/`type` entries of a FastAPI 422 detail. -/
inductive FieldError where
  | bodyNotObject : FieldError
  | missingTexts : FieldError
  | textsNotList : FieldError
  | elemNotString (i : Nat) : FieldError
deriving DecidableEq

/-- The element-wise errors reported for a `texts` array whose members
are not all strings, indexed from `i`. -/
def elemErrorsFrom (i : Nat) : List Json → List FieldError
  | [] => []
  | j :: rest =>
    match strOfJson j with
    | some _ => elemErrorsFrom (i + 1) rest
    | none => .elemNotString i :: elemErrorsFrom (i + 1) rest

/-- Validation of a parsed request body against the pydantic model
`TextRequest(BaseModel) { texts: list[str] }` (app.py lines 18-19):
the body must be an object, must bind `texts` to a list, and every
list element must be a string. Extra fields are ignored, which is the
pydantic default for a `BaseModel`. -/
def validateTextRequest (body : Json) : Except (List FieldError) (List String) :=
  match body with
  | .obj fields =>
    match getField "texts" fields with
    | none => .error [.missingTexts]
    | some (.arr items) =>
      match allStrings items with
      | some ts => .ok ts
      | none => .error (elemErrorsFrom 0 items)
    | some _ => .error [.textsNotList]
  | _ => .error [.bodyNotObject]

/-- An HTTP response of the `/embed` endpoint: 200 with the embeddings,
422 with the validation detail, or 500 with no payload. -/
inductive Response where
  | ok (embeddings : List (List ℚ)) : Response
  | clientError (status : Nat) (detail : List FieldError) : Response
  | serverError (status : Nat) : Response
deriving DecidableEq

/-- Modelled from the spec: the external model's `encode` on a batch,
`encode(texts, normalize) -> vectors`, encodes each string
independently of the others in the batch, so a batched call is the
per-string encoder mapped over the list. -/
def embedTexts (enc : String → List ℚ) (ts : List String) : List (List ℚ) :=
  ts.map enc

/-- Modelled from the spec: a model invocation that always succeeds,
returning the independent per-string encodings as one batch. -/
def encodeSpec (enc : String → List ℚ) : List String → Option (List (List ℚ)) :=
  fun ts => some (embedTexts enc ts)

/-- The `/embed` handler (app.py lines 21-24): validate the body into
`TextRequest`, invoke the model on `req.texts`, and serialize the
result. A validation failure is surfaced by FastAPI as a 422 response
carrying the field errors, before the handler body runs; an exception
from the model invocation is surfaced as a 500 response with no
partial payload (`encode` returning `none` models the raise). -/
def handleEmbed (encode : List String → Option (List (List ℚ))) (body : Json) :
    Response :=
  match validateTextRequest body with
  | .error errs => .clientError 422 errs
  | .ok ts =>
    match encode ts with
    | some vs => .ok vs
    | none => .serverError 500

/-- The whole process-wide state of the service: the model loaded at
startup (app.py line 6). Nothing else is shared between requests. -/
structure ServiceState where
  encode : List String → Option (List (List ℚ))
deriving Inhabited

/-- Serving one request: the handler reads the process-wide model and
produces a response; it assigns no global, writes no storage and keeps
no log, so the state after the request is the state before it. -/
def handleReq (st : ServiceState) (body : Json) : Response × ServiceState :=
  (handleEmbed st.encode body, st)

/-- Modelled from the spec: process startup. The module-level
`model = SentenceTransformer("all-MiniLM-L6-v2")` (app.py line 6) runs
before `uvicorn.run` (line 28); if the constructor raises (`none`),
the import fails and the server never binds, so no service state
exists. -/
def startService
    (loadResult : Option (List String → Option (List (List ℚ)))) :
    Option ServiceState :=
  match loadResult with
  | none => none
  | some encode => some ⟨encode⟩

/-- Modelled from the spec: a whole process run. Startup happens first;
only if it succeeds is the sequence of inbound request bodies served,
every request using the one model loaded at startup. -/
def runProcess
    (loadResult : Option (List String → Option (List (List ℚ))))
    (bodies : List Json) : Option (List Response) :=
  match startService loadResult with
  | none => none
  | some st => some (bodies.map (fun b => (handleReq st b).1))

/-- The squared euclidean norm of a vector, in exact arithmetic. -/
def l2normSq : List ℚ → ℚ
  | [] => 0
  | x :: xs => x * x + l2normSq xs

/-- A concrete unit vector of the default model's dimensionality,
used to instantiate theorems about the abstract encoder. -/
def unitVec384 : List ℚ := (1 : ℚ) :: List.replicate 383 0

/-! ## Helper lemmas -/

lemma allStrings_map_str (ts : List String) :
    allStrings (ts.map Json.str) = some ts := by
  induction ts with
  | nil => rfl
  | cons s rest ih => simp [allStrings, strOfJson, ih]

lemma elemErrorsFrom_ne_nil (items : List Json) :
    ∀ i : Nat, allStrings items = none → elemErrorsFrom i items ≠ [] := by
  induction items with
  | nil => intro i h; simp [allStrings] at h
  | cons j rest ih =>
    intro i h
    cases hj : strOfJson j with
    | none => simp [elemErrorsFrom, hj]
    | some s =>
      cases hr : allStrings rest with
      | some ts => exfalso; simp [allStrings, hj, hr] at h
      | none => simpa [elemErrorsFrom, hj] using ih (i + 1) hr

lemma validate_error_ne_nil (body : Json) (errs : List FieldError)
    (h : validateTextRequest body = .error errs) : errs ≠ [] := by
  intro hnil
  subst hnil
  cases body with
  | obj fields =>
    cases hg : getField "texts" fields with
    | none => simp [validateTextRequest, hg] at h
    | some v =>
      cases v with
      | arr items =>
        cases hs : allStrings items with
        | none =>
          simp [validateTextRequest, hg, hs] at h
          exact elemErrorsFrom_ne_nil items 0 hs h
        | some ts => simp [validateTextRequest, hg, hs] at h
      | null => simp [validateTextRequest, hg] at h
      | bool b => simp [validateTextRequest, hg] at h
      | num n => simp [validateTextRequest, hg] at h
      | str s => simp [validateTextRequest, hg] at h
      | obj f2 => simp [validateTextRequest, hg] at h
  | null => simp [validateTextRequest] at h
  | bool b => simp [validateTextRequest] at h
  | num n => simp [validateTextRequest] at h
  | str s => simp [validateTextRequest] at h
  | arr items => simp [validateTextRequest] at h

lemma l2normSq_replicate_zero (n : Nat) :
    l2normSq (List.replicate n 0) = 0 := by
  induction n with
  | zero => rfl
  | succ m ih =>
    have h1 : l2normSq (List.replicate (m + 1) 0) =
        0 * 0 + l2normSq (List.replicate m 0) := rfl
    rw [h1, ih]
    norm_num

lemma unitVec384_normSq : l2normSq unitVec384 = 1 := by
  have h1 : l2normSq unitVec384 =
      1 * 1 + l2normSq (List.replicate 383 0) := rfl
  rw [h1, l2normSq_replicate_zero]
  norm_num

lemma unitVec384_length : unitVec384.length = 384 := by
  have h1 : unitVec384.length = (List.replicate 383 (0 : ℚ)).length + 1 := rfl
  rw [h1, List.length_replicate]

/-! ## Claims -/

/-- Claim C1: for every valid request body parsing as a list of strings
`texts`, the embed operation returns `len(texts)` embeddings, the i-th
being the embedding of `texts[i]`, and `embed([])` returns `[]`. -/
theorem embed_preserves_length_and_order (enc : String → List ℚ)
    (body : Json) (ts : List String)
    (h : validateTextRequest body = .ok ts) :
    handleEmbed (encodeSpec enc) body = .ok (embedTexts enc ts) ∧
    (embedTexts enc ts).length = ts.length ∧
    (∀ i : Nat, (embedTexts enc ts).get? i = (ts.get? i).map enc) ∧
    embedTexts enc [] = [] := by
  refine ⟨by simp [handleEmbed, h, encodeSpec], by simp [embedTexts], ?_, rfl⟩
  intro i
  simp [embedTexts, List.get?_eq_getElem?, List.getElem?_map]

theorem embed_preserves_length_and_order_witness :
    handleEmbed (encodeSpec (fun _ => ([] : List ℚ)))
      (Json.obj [("texts", Json.arr [Json.str "a", Json.str "b"])]) =
      .ok [[], []] ∧
    (embedTexts (fun _ => ([] : List ℚ)) ["a", "b"]).length = 2 := by
  have h := embed_preserves_length_and_order (fun _ => ([] : List ℚ))
    (Json.obj [("texts", Json.arr [Json.str "a", Json.str "b"])]) ["a", "b"] rfl
  exact ⟨h.1, h.2.1⟩

/-- Claim C2: every vector returned by embed has unit L2 norm, given
that the model normalizes each vector before returning it (here:
squared norm exactly 1 in exact arithmetic). -/
theorem embed_vectors_unit_norm (enc : String → List ℚ)
    (h : ∀ s, l2normSq (enc s) = 1) (ts : List String) (v : List ℚ)
    (hv : v ∈ embedTexts enc ts) : l2normSq v = 1 := by
  simp only [embedTexts, List.mem_map] at hv
  obtain ⟨s, _, rfl⟩ := hv
  exact h s

theorem embed_vectors_unit_norm_witness :
    unitVec384 ∈ embedTexts (fun _ => unitVec384) ["a"] ∧
    l2normSq unitVec384 = 1 :=
  ⟨by simp [embedTexts],
   embed_vectors_unit_norm (fun _ => unitVec384)
     (fun _ => unitVec384_normSq) ["a"] unitVec384 (by simp [embedTexts])⟩

/-- Claim C3: no input string influences another string's embedding:
embed maps list concatenation to vector-list concatenation, and the
i-th vector of `embed(ts)` is the single vector of `embed([ts[i]])`. -/
theorem embed_batch_independence (enc : String → List ℚ) :
    (∀ ts₁ ts₂ : List String,
      embedTexts enc (ts₁ ++ ts₂) = embedTexts enc ts₁ ++ embedTexts enc ts₂) ∧
    (∀ (ts : List String) (i : Nat) (s : String), ts.get? i = some s →
      (embedTexts enc ts).get? i = (embedTexts enc [s]).head?) := by
  constructor
  · intro ts₁ ts₂
    simp [embedTexts]
  · intro ts i s hs
    rw [List.get?_eq_getElem?] at hs
    simp [embedTexts, List.get?_eq_getElem?, List.getElem?_map, hs]

theorem embed_batch_independence_witness :
    embedTexts (fun _ => unitVec384) (["a"] ++ ["b"]) =
      embedTexts (fun _ => unitVec384) ["a"] ++
        embedTexts (fun _ => unitVec384) ["b"] ∧
    (embedTexts (fun _ => unitVec384) ["a", "b"]).get? 1 =
      (embedTexts (fun _ => unitVec384) ["b"]).head? :=
  ⟨(embed_batch_independence (fun _ => unitVec384)).1 ["a"] ["b"],
   (embed_batch_independence (fun _ => unitVec384)).2 ["a", "b"] 1 "b" rfl⟩

/-- Claim C5: the embed operation is deterministic: the handler leaves
the process state unchanged, so serving the same body twice in a row
yields the same response both times. -/
theorem embed_deterministic (st : ServiceState) (body : Json) :
    (handleReq (handleReq st body).2 body).1 = (handleReq st body).1 := rfl

/-- Claim C9: handling a request has no side effect beyond the
response: the process state after the call is exactly the state before
it, and the response is a function of only the loaded model and the
body. -/
theorem handler_no_side_effects (st : ServiceState) (body : Json) :
    (handleReq st body).2 = st ∧
    (handleReq st body).1 = handleEmbed st.encode body := ⟨rfl, rfl⟩

/-- Claim C4: every request body that fails validation yields a 4xx
client error (422) carrying the machine-readable field errors, the
error list is never empty, and the response is the same whatever the
model is, so the model is never invoked. -/
theorem malformed_body_client_error (body : Json) (errs : List FieldError)
    (h : validateTextRequest body = .error errs) :
    (∀ encode, handleEmbed encode body = .clientError 422 errs) ∧
    errs ≠ [] ∧ 400 ≤ 422 ∧ 422 < 500 := by
  refine ⟨fun encode => ?_, validate_error_ne_nil body errs h, by norm_num,
    by norm_num⟩
  simp [handleEmbed, h]

theorem malformed_body_client_error_witness :
    handleEmbed (encodeSpec (fun _ => unitVec384))
      (Json.obj [("texts", Json.str "not a list")]) =
      .clientError 422 [.textsNotList] ∧
    ([FieldError.textsNotList] : List FieldError) ≠ [] :=
  have h := malformed_body_client_error
    (Json.obj [("texts", Json.str "not a list")]) [.textsNotList] rfl
  ⟨h.1 (encodeSpec (fun _ => unitVec384)), h.2.1⟩

/-- Claim C6: if the model invocation raises on a validated request,
the response is a 5xx with no embeddings and the process state is
unchanged; and whenever a request succeeds, its payload is exactly the
model's full batch output, so there are no partial results. -/
theorem model_failure_no_partial_results
    (encode : List String → Option (List (List ℚ))) (body : Json)
    (ts : List String) (h : validateTextRequest body = .ok ts) :
    (encode ts = none →
      handleReq ⟨encode⟩ body = (.serverError 500, ⟨encode⟩)) ∧
    (∀ vs, handleEmbed encode body = .ok vs → encode ts = some vs) := by
  constructor
  · intro he
    simp [handleReq, handleEmbed, h, he]
  · intro vs hv
    simp only [handleEmbed, h] at hv
    cases he : encode ts with
    | none => rw [he] at hv; simp at hv
    | some ws => rw [he] at hv; simp at hv; rw [hv]

theorem model_failure_no_partial_results_witness :
    handleReq ⟨fun _ => none⟩
      (Json.obj [("texts", Json.arr [Json.str "a"])]) =
      (.serverError 500, ⟨fun _ => none⟩) :=
  (model_failure_no_partial_results (fun _ => none)
    (Json.obj [("texts", Json.arr [Json.str "a"])]) ["a"] rfl).1 rfl

/-- Claim C7: the model is loaded exactly once at startup, before any
request is served: a failed load means no service state exists and no
request is ever answered, while a successful load serves every request
of the process lifetime with that one model. -/
theorem startup_fail_fast :
    startService none = none ∧
    (∀ bodies : List Json, runProcess none bodies = none) ∧
    (∀ (encode : List String → Option (List (List ℚ)))
      (bodies : List Json),
      runProcess (some encode) bodies =
        some (bodies.map (fun b => handleEmbed encode b))) := by
  refine ⟨rfl, fun bodies => rfl, fun encode bodies => ?_⟩
  simp [runProcess, startService, handleReq]

/-- Claim C8: all returned vectors have the model-defined length; with
the named default model of dimensionality 384, embedding
`["hello world"]` yields exactly one vector of 384 entries with unit
norm. -/
theorem embed_fixed_dimension (enc : String → List ℚ)
    (hdim : ∀ s, (enc s).length = 384)
    (hnorm : ∀ s, l2normSq (enc s) = 1) :
    embedTexts enc ["hello world"] = [enc "hello world"] ∧
    (enc "hello world").length = 384 ∧
    l2normSq (enc "hello world") = 1 ∧
    ∀ (ts : List String) (v : List ℚ), v ∈ embedTexts enc ts →
      v.length = 384 := by
  refine ⟨rfl, hdim _, hnorm _, fun ts v hv => ?_⟩
  simp only [embedTexts, List.mem_map] at hv
  obtain ⟨s, _, rfl⟩ := hv
  exact hdim s

theorem embed_fixed_dimension_witness :
    embedTexts (fun _ => unitVec384) ["hello world"] = [unitVec384] ∧
    unitVec384.length = 384 ∧
    l2normSq unitVec384 = 1 :=
  have h := embed_fixed_dimension (fun _ => unitVec384)
    (fun _ => unitVec384_length) (fun _ => unitVec384_normSq)
  ⟨h.1, h.2.1, h.2.2.1⟩

/-- Claim C10: a body whose `texts` field binds a list of strings is
accepted even in the presence of additional unknown keys: validation
succeeds and the embeddings depend only on `texts`. -/
theorem extra_fields_ignored (enc : String → List ℚ)
    (fields : List (String × Json)) (ts : List String)
    (h : getField "texts" fields = some (Json.arr (ts.map Json.str))) :
    validateTextRequest (Json.obj fields) = .ok ts ∧
    handleEmbed (encodeSpec enc) (Json.obj fields) =
      .ok (embedTexts enc ts) := by
  have hv : validateTextRequest (Json.obj fields) = .ok ts := by
    simp [validateTextRequest, h, allStrings_map_str]
  exact ⟨hv, by simp [handleEmbed, hv, encodeSpec]⟩

theorem extra_fields_ignored_witness :
    validateTextRequest
      (Json.obj [("texts", Json.arr [Json.str "a"]), ("mode", Json.num 7)]) =
      .ok ["a"] ∧
    handleEmbed (encodeSpec (fun _ => unitVec384))
      (Json.obj [("texts", Json.arr [Json.str "a"]), ("mode", Json.num 7)]) =
      .ok [unitVec384] :=
  extra_fields_ignored (fun _ => unitVec384)
    [("texts", Json.arr [Json.str "a"]), ("mode", Json.num 7)] ["a"] rfl

end EmbeddingService
